import Mathlib

/-!
Verification of the bulk-saving engine of `sapp` (`src/sapp/bulk_saver.py`).

The file embeds the `BulkSaver` class as executable Lean definitions:

* `split_every` — chunking of a sequence into fixed-size pieces
  (modelled from the spec, the helper lives in `iterutil`);
* `sub_batch_size_of` — the ceiling division `-(len(batch) // -BATCH_SPLIT_FACTOR)`;
* `saveBatchGo` / `save_batch` — the recursive duplicate-key retry algorithm
  of `BulkSaver._save_batch`, written with an explicit fuel argument so that
  it evaluates by kernel reduction (the fuel is irrelevant once it is at
  least the batch length, which is proved below);
* `save_items` — the per-type batching loop of `BulkSaver._save`;
* `add`, `add_all` — the buffering entry points;
* `prepare_model` — the sort-by-field-keys step of `BulkSaver._prepare`;
* `save_all_exec` — the orchestration of `BulkSaver.save_all` as a state
  transformer that also produces an event trace (reserve, prepare, save).

Theorems named `C1_…` through `C10_…` settle the corresponding claims.
-/

namespace BulkSaverModel

/-- Position of the first occurrence of `a` in `l` (the length of `l` when
absent), mirroring Python's `list.index`. -/
def listPos {α : Type} [DecidableEq α] : List α → α → Nat
  | [], _ => 0
  | x :: xs, a => if x = a then 0 else listPos xs a + 1

/-- Fuel-indexed body of `split_every`; the fuel makes the recursion
structural so that concrete instances reduce inside the kernel. -/
def splitEveryGo {α : Type} (n : Nat) : Nat → List α → List (List α)
  | _, [] => []
  | 0, _ :: _ => []
  | fuel + 1, x :: xs => (x :: xs).take n :: splitEveryGo n fuel ((x :: xs).drop n)

/-- Modelled from the spec: `split_every` (defined in `sapp/iterutil.py`, which is
not under `src/`) splits a sequence into successive chunks of `n` elements, the
last chunk possibly smaller; a chunk size of zero yields nothing. -/
def split_every {α : Type} (n : Nat) (l : List α) : List (List α) :=
  if n = 0 then [] else splitEveryGo n l.length l

/-- `BulkSaver.BATCH_SIZE`. -/
def BATCH_SIZE : Nat := 30000

/-- `BulkSaver.BATCH_SPLIT_FACTOR`: the number of sub-batches to split the
parent batch into before retrying on duplicate key exceptions. -/
def BATCH_SPLIT_FACTOR : Nat := 4

/-- The sub-batch size computed in `_save_batch`:
`sub_batch_size = -(len(batch) // -self.BATCH_SPLIT_FACTOR)`, Python floor
division negated twice, i.e. ceiling division. -/
def sub_batch_size_of (n : Nat) : Nat :=
  (-(Int.fdiv (n : Int) (-(BATCH_SPLIT_FACTOR : Int)))).toNat

/-- The store-facing behavior of one record type during the write phase,
abstracting the external collaborators used by `_save_batch`:
`isDup r` holds when inserting `r` collides with an existing row, so a bulk
insert of a batch raises `IntegrityError` exactly when the batch contains such
a record; `mergeResolves r` holds when `cls.merge(database, [r])` returns no
unresolved items; `clsName` is `cls.__name__`; `showRecord` renders a record
in the error message. -/
structure WriteEnv (α : Type) where
  isDup : α → Bool
  mergeResolves : α → Bool
  clsName : String
  showRecord : α → String

/-- The `ValueError` message raised by `_save_batch` when a single-record
batch still conflicts after a fresh merge. -/
def unresolvedDuplicateMessage {α : Type} (env : WriteEnv α) (d : α) : String :=
  "Got a duplicate key exception that was not resolved by " ++ env.clsName
    ++ ".merge: " ++ env.showRecord d

/-- Fuel-indexed embedding of `BulkSaver._save_batch`. One unit of fuel is
consumed per split level; the result is fuel-independent once the fuel is at
least `Nat.clog BATCH_SPLIT_FACTOR batch.length` (proved below), and
`save_batch` fixes the fuel to the batch length. A successful insert costs one
round trip; a duplicate-key failure on a multi-record batch splits it into
sub-batches of `sub_batch_size_of` records and recurses over them in order,
accumulating round trips on top of the failed attempt; a duplicate-key failure
on a single record re-merges it, raising `ValueError` if still unresolved. -/
def saveBatchGo {α : Type} (env : WriteEnv α) (fuel : Nat) (batch : List α) :
    Except String Nat :=
  if batch.any env.isDup = false then Except.ok 1
  else
    match batch, fuel with
    | [duplicate], _ =>
        if env.mergeResolves duplicate then Except.ok 1
        else Except.error (unresolvedDuplicateMessage env duplicate)
    | _, 0 => Except.error "recursion fuel exhausted"
    | _, f + 1 =>
        (split_every (sub_batch_size_of batch.length) batch).foldlM
          (fun acc sb => (saveBatchGo env f sb).map (fun r => acc + r)) 1

/-- `BulkSaver._save_batch` with sufficient fuel. -/
def save_batch {α : Type} (env : WriteEnv α) (batch : List α) : Except String Nat :=
  saveBatchGo env batch.length batch

/-- Sequential processing of a list of batches, left to right, summing round
trips and stopping at the first fatal error, as the loops in `_save` and
`_save_batch` do. -/
def saveBatchList {α : Type} (env : WriteEnv α) (batches : List (List α)) :
    Except String Nat :=
  batches.foldlM (fun acc b => (save_batch env b).map (fun r => acc + r)) 0

/-- The batching loop of `BulkSaver._save` over one type's prepared items:
split into `BATCH_SIZE`-sized chunks and save each chunk with `_save_batch`,
summing the round trips. -/
def save_items {α : Type} (env : WriteEnv α) (items : List α) : Except String Nat :=
  saveBatchList env (split_every BATCH_SIZE items)

/-- The model classes of `sapp.models` that occur in `bulk_saver.py`.
`SAVING_CLASSES_ORDER` lists the first twelve. `Run` stands for a model class
outside the saving order — modelled from the spec: the assertion message
"%s should be added with session.add()" presupposes model classes that are not
in the dependency list (such as `Run` in `sapp.models`, which is not under
`src/`). -/
inductive ModelClass where
  | SharedText
  | Issue
  | IssueInstanceFixInfo
  | IssueInstance
  | IssueInstanceSharedTextAssoc
  | TraceFrame
  | IssueInstanceTraceFrameAssoc
  | TraceFrameAnnotation
  | TraceFrameLeafAssoc
  | TraceFrameAnnotationTraceFrameAssoc
  | ClassTypeInterval
  | MetaRunIssueInstanceIndex
  | Run
deriving DecidableEq

/-- `BulkSaver.SAVING_CLASSES_ORDER`: order is significant, objects are saved
in this order. -/
def SAVING_CLASSES_ORDER : List ModelClass :=
  [ModelClass.SharedText,
    ModelClass.Issue,
    ModelClass.IssueInstanceFixInfo,
    ModelClass.IssueInstance,
    ModelClass.IssueInstanceSharedTextAssoc,
    ModelClass.TraceFrame,
    ModelClass.IssueInstanceTraceFrameAssoc,
    ModelClass.TraceFrameAnnotation,
    ModelClass.TraceFrameLeafAssoc,
    ModelClass.TraceFrameAnnotationTraceFrameAssoc,
    ModelClass.ClassTypeInterval,
    ModelClass.MetaRunIssueInstanceIndex]

/-- A pending record: its declared model class (`item.model`) plus an abstract
payload distinguishing records. -/
structure Item where
  model : ModelClass
  payload : Nat
deriving DecidableEq

/-- The `self.saving` buffers, keyed by class (class names are unique, so a
class stands for its `__name__`). Classes outside the order have no bucket in
Python; here they are total functions whose value never becomes relevant. -/
def Saving : Type := ModelClass → List Item

/-- Replace one bucket. -/
def updateBucket (s : Saving) (c : ModelClass) (l : List Item) : Saving :=
  fun x => if x = c then l else s x

/-- `BulkSaver.add`: asserts that the item's model is in
`SAVING_CLASSES_ORDER`, then appends the item to the bucket keyed by its
model's name. -/
def add (s : Saving) (item : Item) : Except String Saving :=
  if item.model ∈ SAVING_CLASSES_ORDER then
    Except.ok (updateBucket s item.model (s item.model ++ [item]))
  else Except.error "should be added with session.add()"

/-- `BulkSaver.add_all`: with a non-empty list, asserts that the FIRST item's
model is in `SAVING_CLASSES_ORDER` and extends the bucket keyed by the first
item's model name with ALL the items; an empty list leaves the buffers
untouched. -/
def add_all (s : Saving) (items : List Item) : Except String Saving :=
  match items with
  | [] => Except.ok s
  | first :: _ =>
      if first.model ∈ SAVING_CLASSES_ORDER then
        Except.ok (updateBucket s first.model (s first.model ++ items))
      else Except.error "should be added with session.add_all()"

/-- The comparison used by the sort in `_prepare`: records compare by the
ordered list of field names of `cls.to_dict(r)` (Python compares lists of
strings lexicographically; the key type `K` is any linear order standing for
field names under the string order). -/
def keyOrder {α K : Type} [LinearOrder K] (toKeys : α → List K) (a b : α) : Prop :=
  toKeys a ≤ toKeys b

instance {α K : Type} [LinearOrder K] (toKeys : α → List K) :
    DecidableRel (keyOrder toKeys) :=
  fun a b => inferInstanceAs (Decidable (toKeys a ≤ toKeys b))

/-- `BulkSaver._prepare` for one class: run the type's `prepare` capability on
the bucket, then sort the result by the list of keys of each record's field
map (`sorted(..., key=lambda r: list(cls.to_dict(r).keys()))`; Python's
`sorted` is a stable comparison sort, embedded as insertion sort). -/
def prepare_model {α K : Type} [LinearOrder K] (prep : List α → List α)
    (toKeys : α → List K) (bucket : List α) : List α :=
  List.insertionSort (keyOrder toKeys) (prep bucket)

/-- One observable step of `save_all`: the single key-reservation call (given
the list of classes with pending records), the completed preparation of one
class, or the completed write of one class. -/
inductive Event where
  | reserve (classes : List ModelClass)
  | prepare (c : ModelClass)
  | save (c : ModelClass)
deriving DecidableEq

/-- Store and collaborator behavior injected into one `save_all` run: whether
the key reservation raises, whether `cls.prepare` raises for a class, the
`cls.prepare` output, the field-key shape used by the sort, and whether
writing a class raises a fatal error (an unresolved duplicate or a transport
error). -/
structure SaveEnv where
  reserveFails : Bool
  prepFails : ModelClass → Bool
  prep : ModelClass → List Item → List Item
  toKeys : ModelClass → Item → List String
  writeFails : ModelClass → Bool

/-- The `saving_classes` list computed by `save_all`: the classes with
non-empty buckets, in saving order. -/
def savingClasses (s : Saving) : List ModelClass :=
  SAVING_CLASSES_ORDER.filter (fun c => !(s c).isEmpty)

/-- The preparation loop of `save_all` (`self._prepare(database, cls, pk_gen)`
for each class in order): a raising `cls.prepare` leaves that bucket unchanged
and aborts the loop. Returns the final buffers, the trace of completed
preparations, and a success flag. -/
def prepPhase (env : SaveEnv) : Saving → List ModelClass → Saving × List Event × Bool
  | s, [] => (s, [], true)
  | s, c :: rest =>
      if env.prepFails c then (s, [], false)
      else
        let s' := updateBucket s c (prepare_model (env.prep c) (env.toKeys c) (s c))
        let r := prepPhase env s' rest
        (r.1, Event.prepare c :: r.2.1, r.2.2)

/-- The writing loop of `save_all` (`self._save(database, cls, pk_gen)` for
each class in order): `_save` first empties the class's bucket ("allow GC
after we are done") and then writes; a fatal write error aborts the loop with
the failing class's bucket already emptied. -/
def savePhase (env : SaveEnv) : Saving → List ModelClass → Saving × List Event × Bool
  | s, [] => (s, [], true)
  | s, c :: rest =>
      let s' := updateBucket s c []
      if env.writeFails c then (s', [], false)
      else
        let r := savePhase env s' rest
        (r.1, Event.save c :: r.2.1, r.2.2)

/-- `BulkSaver.save_all`: compute the non-empty classes in saving order,
reserve primary keys for all of them in one call, prepare each class in order,
then write each class in order. Returns the final buffers, the event trace,
and a success flag. -/
def save_all_exec (env : SaveEnv) (s : Saving) : Saving × List Event × Bool :=
  let cs := savingClasses s
  if env.reserveFails then (s, [], false)
  else
    let p := prepPhase env s cs
    if p.2.2 then
      let w := savePhase env p.1 cs
      (w.1, Event.reserve cs :: (p.2.1 ++ w.2.1), w.2.2)
    else (p.1, Event.reserve cs :: p.2.1, false)

instance keyOrderTotal {α K : Type} [LinearOrder K] (toKeys : α → List K) :
    IsTotal α (keyOrder toKeys) :=
  ⟨fun a b => le_total (toKeys a) (toKeys b)⟩

instance keyOrderTrans {α K : Type} [LinearOrder K] (toKeys : α → List K) :
    IsTrans α (keyOrder toKeys) :=
  ⟨fun _ _ _ hab hbc => le_trans hab hbc⟩

instance keyOrderRefl {α K : Type} [LinearOrder K] (toKeys : α → List K) :
    IsRefl α (keyOrder toKeys) :=
  ⟨fun a => le_refl (toKeys a)⟩

/-- Store round trips attributed to one trace event. Modelled from the spec:
the key reservation is one atomic unit of work against the store when at least
one class needs keys, and reserves nothing when `saving_classes` is empty
(`PrimaryKeyGenerator.reserve` is defined in `sapp/models.py`, which is not
under `src/`); a completed preparation (whose merge consults the store) and a
completed write each count conservatively as at least one round trip. -/
def eventRoundTrips : Event → Nat
  | Event.reserve cs => if cs.isEmpty then 0 else 1
  | Event.prepare _ => 1
  | Event.save _ => 1

/-- Total store round trips attributed to a `save_all` trace. -/
def traceRoundTrips (t : List Event) : Nat :=
  (t.map eventRoundTrips).sum

/-- A run environment where nothing fails, `cls.prepare` is the identity and
every record has the same (empty) field-key shape. -/
def envNoFail : SaveEnv :=
  { reserveFails := false, prepFails := fun _ => false,
    prep := fun _ l => l, toKeys := fun _ _ => [],
    writeFails := fun _ => false }

/-- Like `envNoFail` but the key reservation raises. -/
def envReserveFails : SaveEnv :=
  { envNoFail with reserveFails := true }

/-- Like `envNoFail` but writing `SharedText` raises a fatal error. -/
def envWriteFailsShared : SaveEnv :=
  { envNoFail with
      writeFails := fun c => c = ModelClass.SharedText }

/-- All buffers empty. -/
def emptySaving : Saving := fun _ => []

/-- Buffers holding one pending `SharedText` record and one pending `Issue`
record. -/
def savingTwo : Saving := fun c =>
  match c with
  | ModelClass.SharedText => [⟨ModelClass.SharedText, 0⟩]
  | ModelClass.Issue => [⟨ModelClass.Issue, 1⟩]
  | _ => []

/-- Write behavior for the C3 scenario: among the eight records `0,…,7`
exactly record `3` is a duplicate, and a fresh merge resolves it. -/
def envOneDup : WriteEnv Nat :=
  { isDup := fun r => r == 3, mergeResolves := fun _ => true,
    clsName := "Issue", showRecord := fun _ => "record" }

/-- Write behavior where every record conflicts and every merge resolves. -/
def envAllDup : WriteEnv Nat :=
  { isDup := fun _ => true, mergeResolves := fun _ => true,
    clsName := "Issue", showRecord := fun _ => "record" }

/-- Write behavior with no conflicts at all. -/
def envNoDup : WriteEnv Nat :=
  { isDup := fun _ => false, mergeResolves := fun _ => false,
    clsName := "SharedText", showRecord := fun _ => "record" }

/-- Write behavior where record `5` conflicts and merge does NOT resolve it. -/
def envStuckDup : WriteEnv Nat :=
  { isDup := fun r => r == 5, mergeResolves := fun _ => false,
    clsName := "TraceFrame", showRecord := fun r => toString r }

/-- The field-key shapes of the C9 counterexample (field names abstracted to
naturals in name order, say `0 = "a"`, `1 = "b"`, `2 = "c"`): records `0` and
`2` have the same key SET but present it in different orders, record `1` has a
different key set whose key list sorts strictly between their two key lists. -/
def toKeysABC : Nat → List Nat
  | 0 => [0, 1]
  | 1 => [0, 2]
  | _ => [1, 0]

theorem listPos_cons_self {α : Type} [DecidableEq α] (x : α) (xs : List α) :
    listPos (x :: xs) x = 0 := by
  simp [listPos]

theorem listPos_cons_ne {α : Type} [DecidableEq α] {x a : α} (xs : List α)
    (h : x ≠ a) : listPos (x :: xs) a = listPos xs a + 1 := by
  simp [listPos, h]

theorem listPos_lt_length {α : Type} [DecidableEq α] {a : α} :
    ∀ {l : List α}, a ∈ l → listPos l a < l.length := by
  intro l
  induction l with
  | nil => intro h; cases h
  | cons x xs ih =>
      intro h
      by_cases hx : x = a
      · subst hx; simp [listPos]
      · rcases List.mem_cons.mp h with h1 | h2
        · exact absurd h1.symm hx
        · simpa [listPos, hx] using ih h2

theorem listPos_append_left {α : Type} [DecidableEq α] {a : α} :
    ∀ {l₁ : List α} (l₂ : List α), a ∈ l₁ →
      listPos (l₁ ++ l₂) a = listPos l₁ a := by
  intro l₁
  induction l₁ with
  | nil => intro l₂ h; cases h
  | cons x xs ih =>
      intro l₂ h
      by_cases hx : x = a
      · subst hx; simp [listPos]
      · rcases List.mem_cons.mp h with h1 | h2
        · exact absurd h1.symm hx
        · simp [listPos, hx, ih l₂ h2]

theorem listPos_append_right {α : Type} [DecidableEq α] {a : α} :
    ∀ {l₁ : List α} (l₂ : List α), a ∉ l₁ →
      listPos (l₁ ++ l₂) a = l₁.length + listPos l₂ a := by
  intro l₁
  induction l₁ with
  | nil => intro l₂ _; simp
  | cons x xs ih =>
      intro l₂ h
      have hx : x ≠ a := fun hxa => h (hxa ▸ List.mem_cons_self x xs)
      have hxs : a ∉ xs := fun hm => h (List.mem_cons_of_mem x hm)
      simp [listPos, hx, ih l₂ hxs]
      omega

theorem listPos_map {α β : Type} [DecidableEq α] [DecidableEq β]
    {f : α → β} (hf : Function.Injective f) (a : α) :
    ∀ (l : List α), listPos (l.map f) (f a) = listPos l a := by
  intro l
  induction l with
  | nil => rfl
  | cons x xs ih =>
      by_cases hx : x = a
      · subst hx; simp [listPos]
      · have hfx : f x ≠ f a := fun he => hx (hf he)
        simp [listPos, hx, hfx, ih]

/-- Filtering a list preserves the relative order of the surviving elements. -/
theorem listPos_filter_lt {α : Type} [DecidableEq α] {p : α → Bool} {a b : α} :
    ∀ {l : List α}, a ∈ l.filter p → b ∈ l.filter p →
      listPos l a < listPos l b →
      listPos (l.filter p) a < listPos (l.filter p) b := by
  intro l
  induction l with
  | nil => intro ha _ _; simp at ha
  | cons x xs ih =>
      intro ha hb hab
      by_cases hx : x = a
      · subst hx
        have hpx : p x = true := by
          rcases List.mem_filter.mp ha with ⟨_, hp⟩; exact hp
        have hxb : x ≠ b := by
          intro he
          rw [he] at hab
          exact Nat.lt_irrefl _ hab
        have hbxs : b ∈ xs.filter p := by
          have : b ∈ (x :: xs).filter p := hb
          rw [List.filter_cons_of_pos hpx] at this
          rcases List.mem_cons.mp this with h1 | h2
          · exact absurd h1.symm hxb
          · exact h2
        rw [List.filter_cons_of_pos hpx, listPos_cons_self,
          listPos_cons_ne _ hxb]
        omega
      · have hxb : x ≠ b := by
          intro he
          rw [he, listPos_cons_self] at hab
          omega
        have haxs : a ∈ xs.filter p := by
          by_cases hpx : p x = true
          · have : a ∈ (x :: xs).filter p := ha
            rw [List.filter_cons_of_pos hpx] at this
            rcases List.mem_cons.mp this with h1 | h2
            · exact absurd h1.symm hx
            · exact h2
          · have hpx' : p x = false := by
              cases hv : p x
              · rfl
              · exact absurd hv hpx
            have : a ∈ (x :: xs).filter p := ha
            rwa [List.filter_cons_of_neg (by simp [hpx'])] at this
        have hbxs : b ∈ xs.filter p := by
          by_cases hpx : p x = true
          · have : b ∈ (x :: xs).filter p := hb
            rw [List.filter_cons_of_pos hpx] at this
            rcases List.mem_cons.mp this with h1 | h2
            · exact absurd h1.symm hxb
            · exact h2
          · have hpx' : p x = false := by
              cases hv : p x
              · rfl
              · exact absurd hv hpx
            have : b ∈ (x :: xs).filter p := hb
            rwa [List.filter_cons_of_neg (by simp [hpx'])] at this
        have hab' : listPos xs a < listPos xs b := by
          rw [listPos_cons_ne _ hx, listPos_cons_ne _ hxb] at hab
          omega
        have hrec := ih haxs hbxs hab'
        by_cases hpx : p x = true
        · rw [List.filter_cons_of_pos hpx, listPos_cons_ne _ hx,
            listPos_cons_ne _ hxb]
          omega
        · have hpx' : p x = false := by
            cases hv : p x
            · rfl
            · exact absurd hv hpx
          rw [List.filter_cons_of_neg (by simp [hpx'])]
          exact hrec

theorem splitEveryGo_fuel {α : Type} {n : Nat} (hn : 1 ≤ n) :
    ∀ (fuel : Nat) (l : List α), l.length ≤ fuel →
      splitEveryGo n fuel l = splitEveryGo n l.length l := by
  intro fuel
  induction fuel using Nat.strong_induction_on with
  | _ fuel ih =>
      intro l hl
      match fuel, l with
      | _, [] => simp [splitEveryGo]
      | 0, x :: xs => simp at hl
      | f + 1, x :: xs =>
          have hlen : (List.drop n (x :: xs)).length = xs.length + 1 - n := by
            simp
          have hd1 : (List.drop n (x :: xs)).length ≤ f := by
            rw [hlen]
            simp at hl
            omega
          have hd2 : (List.drop n (x :: xs)).length ≤ xs.length := by
            rw [hlen]; omega
          have hxf : xs.length < f + 1 := by
            simp at hl; omega
          show (x :: xs).take n :: splitEveryGo n f ((x :: xs).drop n)
              = splitEveryGo n (xs.length + 1) (x :: xs)
          have e1 := ih f (Nat.lt_succ_self f) ((x :: xs).drop n) hd1
          have e2 := ih xs.length hxf ((x :: xs).drop n) hd2
          show (x :: xs).take n :: splitEveryGo n f ((x :: xs).drop n)
              = (x :: xs).take n :: splitEveryGo n xs.length ((x :: xs).drop n)
          rw [e1, e2]

theorem split_every_nil {α : Type} (n : Nat) :
    split_every n ([] : List α) = [] := by
  unfold split_every
  by_cases h : n = 0 <;> simp [h, splitEveryGo]

theorem split_every_cons {α : Type} {n : Nat} (hn : 1 ≤ n) (x : α) (xs : List α) :
    split_every n (x :: xs)
      = (x :: xs).take n :: split_every n ((x :: xs).drop n) := by
  have hn0 : n ≠ 0 := by omega
  unfold split_every
  simp only [hn0, if_false]
  show splitEveryGo n (xs.length + 1) (x :: xs)
      = (x :: xs).take n :: splitEveryGo n ((x :: xs).drop n).length ((x :: xs).drop n)
  have hstep : splitEveryGo n (xs.length + 1) (x :: xs)
      = (x :: xs).take n :: splitEveryGo n xs.length ((x :: xs).drop n) := rfl
  rw [hstep]
  have hd : (List.drop n (x :: xs)).length ≤ xs.length := by
    simp
    omega
  rw [splitEveryGo_fuel hn xs.length ((x :: xs).drop n) hd]

theorem splitEveryGo_chunk_bounds {α : Type} {n : Nat} (hn : 1 ≤ n) :
    ∀ (fuel : Nat) (l : List α) (sub : List α),
      sub ∈ splitEveryGo n fuel l → sub.length ≤ n ∧ sub ≠ [] := by
  intro fuel
  induction fuel with
  | zero =>
      intro l sub h
      cases l with
      | nil => simp [splitEveryGo] at h
      | cons x xs => simp [splitEveryGo] at h
  | succ f ih =>
      intro l sub h
      cases l with
      | nil => simp [splitEveryGo] at h
      | cons x xs =>
          rcases List.mem_cons.mp h with h1 | h2
          · subst h1
            constructor
            · simp
            · have : (List.take n (x :: xs)).length = min n (xs.length + 1) := by
                simp
              intro he
              rw [he] at this
              simp at this
              omega
          · exact ih _ _ h2

theorem mem_split_every_bounds {α : Type} {n : Nat} (hn : 1 ≤ n)
    {l sub : List α} (h : sub ∈ split_every n l) :
    sub.length ≤ n ∧ sub ≠ [] := by
  have hn0 : n ≠ 0 := by omega
  unfold split_every at h
  simp only [hn0, if_false] at h
  exact splitEveryGo_chunk_bounds hn _ _ _ h

theorem splitEveryGo_mem_of_mem {α : Type} {n : Nat} :
    ∀ (fuel : Nat) (l sub : List α) (x : α),
      sub ∈ splitEveryGo n fuel l → x ∈ sub → x ∈ l := by
  intro fuel
  induction fuel with
  | zero =>
      intro l sub x h _
      cases l with
      | nil => simp [splitEveryGo] at h
      | cons y ys => simp [splitEveryGo] at h
  | succ f ih =>
      intro l sub x h hx
      cases l with
      | nil => simp [splitEveryGo] at h
      | cons y ys =>
          rcases List.mem_cons.mp h with h1 | h2
          · subst h1
            exact List.take_subset n (y :: ys) hx
          · exact List.drop_subset n (y :: ys) (ih _ _ x h2 hx)

theorem mem_of_mem_split_every {α : Type} {n : Nat} {l sub : List α} {x : α}
    (h : sub ∈ split_every n l) (hx : x ∈ sub) : x ∈ l := by
  unfold split_every at h
  by_cases hn : n = 0
  · simp [hn] at h
  · simp only [hn, if_false] at h
    exact splitEveryGo_mem_of_mem _ _ _ _ h hx

theorem splitEveryGo_length {α : Type} {n : Nat} (hn : 1 ≤ n) :
    ∀ (fuel : Nat) (l : List α), l.length ≤ fuel →
      (splitEveryGo n fuel l).length = (l.length + n - 1) / n := by
  intro fuel
  induction fuel with
  | zero =>
      intro l hl
      have : l = [] := by
        cases l with
        | nil => rfl
        | cons x xs => simp at hl
      subst this
      have h0 : (0 + n - 1) / n = 0 := Nat.div_eq_of_lt (by omega)
      simp only [splitEveryGo, List.length_nil, h0]
  | succ f ih =>
      intro l hl
      cases l with
      | nil =>
          have h0 : (0 + n - 1) / n = 0 := Nat.div_eq_of_lt (by omega)
          simp only [splitEveryGo, List.length_nil, h0]
      | cons x xs =>
          have hlen : (List.drop n (x :: xs)).length = xs.length + 1 - n := by
            simp
          have hd : (List.drop n (x :: xs)).length ≤ f := by
            rw [hlen]
            simp at hl
            omega
          have hrec := ih ((x :: xs).drop n) hd
          show (splitEveryGo n f ((x :: xs).drop n)).length + 1
              = (xs.length + 1 + n - 1) / n
          rw [hrec, hlen]
          by_cases hc : xs.length + 1 ≤ n
          · have h1 : xs.length + 1 - n = 0 := by omega
            rw [h1]
            have h2 : (0 + n - 1) / n = 0 :=
              Nat.div_eq_of_lt (by omega)
            rw [h2]
            have h3 : (xs.length + 1 + n - 1) / n = 1 := by
              apply Nat.div_eq_of_lt_le
              · omega
              · omega
            omega
          · have h1 : xs.length + 1 - n + n - 1 = xs.length := by omega
            rw [h1]
            have h2 : xs.length + 1 + n - 1 = xs.length + n := by omega
            rw [h2]
            rw [Nat.add_div_right _ (by omega : 0 < n)]

theorem length_split_every {α : Type} {n : Nat} (hn : 1 ≤ n) (l : List α) :
    (split_every n l).length = (l.length + n - 1) / n := by
  have hn0 : n ≠ 0 := by omega
  unfold split_every
  simp only [hn0, if_false]
  exact splitEveryGo_length hn _ l (Nat.le_refl _)

theorem split_every_replicate {α : Type} {n m : Nat} (hn : 1 ≤ n) (hm : 1 ≤ m)
    (x : α) :
    split_every n (List.replicate m x)
      = List.replicate (min n m) x :: split_every n (List.replicate (m - n) x) := by
  obtain ⟨k, rfl⟩ : ∃ k, m = k + 1 := ⟨m - 1, by omega⟩
  have hrepl : List.replicate (k + 1) x = x :: List.replicate k x :=
    List.replicate_succ x k
  rw [hrepl, split_every_cons hn, ← hrepl, List.take_replicate, List.drop_replicate]

theorem sub_batch_size_of_eq (n : Nat) :
    sub_batch_size_of n = (n + BATCH_SPLIT_FACTOR - 1) / BATCH_SPLIT_FACTOR := by
  cases n with
  | zero => rfl
  | succ m =>
      show (-(Int.fdiv (Int.ofNat (m + 1)) (Int.negSucc 3))).toNat
          = (m + 1 + BATCH_SPLIT_FACTOR - 1) / BATCH_SPLIT_FACTOR
      have h : Int.fdiv (Int.ofNat (m + 1)) (Int.negSucc 3) = Int.negSucc (m / 4) :=
        rfl
      rw [h]
      have h2 : -Int.negSucc (m / 4) = ((m / 4 : Nat) : Int) + 1 := by
        simp [Int.neg_negSucc]
      rw [h2]
      have h3 : (((m / 4 : Nat) : Int) + 1).toNat = m / 4 + 1 := by omega
      rw [h3]
      show m / 4 + 1 = (m + 1 + 4 - 1) / 4
      omega

theorem sub_batch_size_of_pos {n : Nat} (h : 1 ≤ n) : 1 ≤ sub_batch_size_of n := by
  rw [sub_batch_size_of_eq]
  show 1 ≤ (n + 4 - 1) / 4
  omega

theorem sub_batch_size_of_lt {n : Nat} (h : 2 ≤ n) : sub_batch_size_of n < n := by
  rw [sub_batch_size_of_eq]
  show (n + 4 - 1) / 4 < n
  omega

theorem foldlM_batches_congr {α : Type} (F G : List α → Except String Nat) :
    ∀ (l : List (List α)), (∀ sb ∈ l, F sb = G sb) →
      ∀ init : Nat,
        l.foldlM (fun acc sb => (F sb).map (fun r => acc + r)) init
          = l.foldlM (fun acc sb => (G sb).map (fun r => acc + r)) init := by
  intro l
  induction l with
  | nil => intro _ _; rfl
  | cons x xs ih =>
      intro h init
      have hx : F x = G x := h x (List.mem_cons_self x xs)
      have hrest : ∀ sb ∈ xs, F sb = G sb := fun sb hsb =>
        h sb (List.mem_cons_of_mem x hsb)
      rw [List.foldlM_cons, List.foldlM_cons, hx]
      cases G x with
      | error e => rfl
      | ok a => exact ih hrest (init + a)

theorem foldlM_batches_init {α : Type} (F : List α → Except String Nat) :
    ∀ (l : List (List α)) (init : Nat),
      l.foldlM (fun acc sb => (F sb).map (fun r => acc + r)) init
        = (l.foldlM (fun acc sb => (F sb).map (fun r => acc + r)) 0).map
            (fun s => init + s) := by
  intro l
  induction l with
  | nil => intro init; rfl
  | cons x xs ih =>
      intro init
      rw [List.foldlM_cons, List.foldlM_cons]
      cases F x with
      | error e => rfl
      | ok a =>
          show List.foldlM (fun acc sb => (F sb).map (fun r => acc + r)) (init + a) xs
              = (List.foldlM (fun acc sb => (F sb).map (fun r => acc + r)) (0 + a) xs).map
                  (fun s => init + s)
          rw [Nat.zero_add, ih (init + a), ih a]
          cases List.foldlM (fun acc sb => (F sb).map (fun r => acc + r)) 0 xs with
          | error e => rfl
          | ok s =>
              show Except.ok (init + a + s) = Except.ok (init + (a + s))
              rw [Nat.add_assoc]

theorem saveBatchGo_no_dup {α : Type} (env : WriteEnv α) (fuel : Nat)
    {batch : List α} (h : batch.any env.isDup = false) :
    saveBatchGo env fuel batch = Except.ok 1 := by
  unfold saveBatchGo
  simp [h]

theorem saveBatchGo_single {α : Type} (env : WriteEnv α) (fuel : Nat) {d : α}
    (h : env.isDup d = true) :
    saveBatchGo env fuel [d]
      = if env.mergeResolves d then Except.ok 1
        else Except.error (unresolvedDuplicateMessage env d) := by
  unfold saveBatchGo
  simp [h]

theorem saveBatchGo_split {α : Type} (env : WriteEnv α) (f : Nat)
    {batch : List α} (hdup : batch.any env.isDup = true) (h2 : 2 ≤ batch.length) :
    saveBatchGo env (f + 1) batch
      = (split_every (sub_batch_size_of batch.length) batch).foldlM
          (fun acc sb => (saveBatchGo env f sb).map (fun r => acc + r)) 1 := by
  match batch, hdup, h2 with
  | a :: b :: t, hdup, _ =>
      show (if (a :: b :: t).any env.isDup = false then Except.ok 1
            else
              (split_every (sub_batch_size_of (a :: b :: t).length)
                  (a :: b :: t)).foldlM
                (fun acc sb => (saveBatchGo env f sb).map (fun r => acc + r)) 1)
          = (split_every (sub_batch_size_of (a :: b :: t).length)
              (a :: b :: t)).foldlM
              (fun acc sb => (saveBatchGo env f sb).map (fun r => acc + r)) 1
      rw [hdup]
      simp

theorem clog_sub_batch {n : Nat} (h2 : 2 ≤ n) :
    Nat.clog BATCH_SPLIT_FACTOR (sub_batch_size_of n) + 1
      ≤ Nat.clog BATCH_SPLIT_FACTOR n := by
  have hb : 1 < BATCH_SPLIT_FACTOR := by decide
  have hc : 0 < Nat.clog BATCH_SPLIT_FACTOR n := Nat.clog_pos hb h2
  have hn4 : n ≤ BATCH_SPLIT_FACTOR ^ Nat.clog BATCH_SPLIT_FACTOR n :=
    Nat.le_pow_clog hb n
  have hpow : BATCH_SPLIT_FACTOR ^ Nat.clog BATCH_SPLIT_FACTOR n
      = BATCH_SPLIT_FACTOR
          * BATCH_SPLIT_FACTOR ^ (Nat.clog BATCH_SPLIT_FACTOR n - 1) := by
    conv_lhs =>
      rw [show Nat.clog BATCH_SPLIT_FACTOR n
            = (Nat.clog BATCH_SPLIT_FACTOR n - 1) + 1 by omega]
    rw [pow_succ]
    ring
  have hk : sub_batch_size_of n
      ≤ BATCH_SPLIT_FACTOR ^ (Nat.clog BATCH_SPLIT_FACTOR n - 1) := by
    rw [sub_batch_size_of_eq]
    rw [hpow] at hn4
    have hb4 : BATCH_SPLIT_FACTOR = 4 := rfl
    rw [hb4] at hn4 ⊢
    omega
  have := (Nat.le_pow_iff_clog_le hb).mp hk
  omega

theorem clog_factor_le_self (n : Nat) : Nat.clog BATCH_SPLIT_FACTOR n ≤ n := by
  have hb : 1 < BATCH_SPLIT_FACTOR := by decide
  exact (Nat.le_pow_iff_clog_le hb).mp (Nat.le_of_lt (Nat.lt_pow_self hb n))

theorem saveBatchGo_fuel_eq {α : Type} (env : WriteEnv α) :
    ∀ (n : Nat) (batch : List α), batch.length ≤ n →
      ∀ (fuel₁ fuel₂ : Nat),
        Nat.clog BATCH_SPLIT_FACTOR batch.length ≤ fuel₁ →
        Nat.clog BATCH_SPLIT_FACTOR batch.length ≤ fuel₂ →
        saveBatchGo env fuel₁ batch = saveBatchGo env fuel₂ batch := by
  intro n
  induction n using Nat.strong_induction_on with
  | _ n ih =>
      intro batch hbn fuel₁ fuel₂ h1 h2
      by_cases hdup : batch.any env.isDup = false
      · rw [saveBatchGo_no_dup env fuel₁ hdup, saveBatchGo_no_dup env fuel₂ hdup]
      · have hdup' : batch.any env.isDup = true := by
          cases hv : batch.any env.isDup
          · exact absurd hv hdup
          · rfl
        match batch, hdup', hbn, h1, h2 with
        | [d], hdup', hbn, h1, h2 =>
            have hd : env.isDup d = true := by
              simp at hdup'
              exact hdup'
            rw [saveBatchGo_single env fuel₁ hd, saveBatchGo_single env fuel₂ hd]
        | a :: b :: t, hdup', hbn, h1, h2 =>
            have hlen2 : 2 ≤ (a :: b :: t).length := by simp
            have hcpos : 0 < Nat.clog BATCH_SPLIT_FACTOR (a :: b :: t).length :=
              Nat.clog_pos (by decide) hlen2
            match fuel₁, fuel₂, h1, h2 with
            | 0, _, h1, _ => omega
            | _ + 1, 0, _, h2 => omega
            | g₁ + 1, g₂ + 1, h1, h2 =>
                rw [saveBatchGo_split env g₁ hdup' hlen2,
                  saveBatchGo_split env g₂ hdup' hlen2]
                apply foldlM_batches_congr
                intro sb hsb
                have hsize : 1 ≤ sub_batch_size_of (a :: b :: t).length :=
                  sub_batch_size_of_pos (by omega)
                have hsb_le : sb.length ≤ sub_batch_size_of (a :: b :: t).length :=
                  (mem_split_every_bounds hsize hsb).1
                have hsb_lt : sb.length < (a :: b :: t).length :=
                  Nat.lt_of_le_of_lt hsb_le (sub_batch_size_of_lt hlen2)
                have hclog_sb : Nat.clog BATCH_SPLIT_FACTOR sb.length + 1
                    ≤ Nat.clog BATCH_SPLIT_FACTOR (a :: b :: t).length :=
                  Nat.le_trans
                    (Nat.add_le_add_right
                      (Nat.clog_mono_right BATCH_SPLIT_FACTOR hsb_le) 1)
                    (clog_sub_batch hlen2)
                exact ih sb.length (Nat.lt_of_lt_of_le hsb_lt hbn) sb
                  (Nat.le_refl _) g₁ g₂ (by omega) (by omega)

/-- The fuel in `saveBatchGo` is irrelevant once it reaches the ceiling
logarithm of the batch length in base `BATCH_SPLIT_FACTOR` — the recursion
depth bound of the retry algorithm. -/
theorem saveBatchGo_eq_save_batch {α : Type} (env : WriteEnv α) {fuel : Nat}
    (batch : List α)
    (h : Nat.clog BATCH_SPLIT_FACTOR batch.length ≤ fuel) :
    saveBatchGo env fuel batch = save_batch env batch := by
  unfold save_batch
  exact saveBatchGo_fuel_eq env batch.length batch (Nat.le_refl _) fuel batch.length
    h (clog_factor_le_self batch.length)

theorem save_batch_no_dup {α : Type} (env : WriteEnv α) {batch : List α}
    (h : batch.any env.isDup = false) : save_batch env batch = Except.ok 1 :=
  saveBatchGo_no_dup env batch.length h

theorem save_batch_single {α : Type} (env : WriteEnv α) {d : α}
    (h : env.isDup d = true) :
    save_batch env [d]
      = if env.mergeResolves d then Except.ok 1
        else Except.error (unresolvedDuplicateMessage env d) :=
  saveBatchGo_single env 1 h

theorem save_batch_split {α : Type} (env : WriteEnv α) {batch : List α}
    (hdup : batch.any env.isDup = true) (h2 : 2 ≤ batch.length) :
    save_batch env batch
      = (saveBatchList env
            (split_every (sub_batch_size_of batch.length) batch)).map
          (fun s => 1 + s) := by
  have hkey : saveBatchGo env ((batch.length - 1) + 1) batch = save_batch env batch := by
    apply saveBatchGo_eq_save_batch
    have := clog_factor_le_self batch.length
    omega
  rw [← hkey, saveBatchGo_split env (batch.length - 1) hdup h2]
  have hcongr := foldlM_batches_congr
    (fun sb => saveBatchGo env (batch.length - 1) sb)
    (fun sb => save_batch env sb)
    (split_every (sub_batch_size_of batch.length) batch)
  rw [hcongr _ 1]
  · unfold saveBatchList
    exact foldlM_batches_init (fun sb => save_batch env sb) _ 1
  · intro sb hsb
    have hsize : 1 ≤ sub_batch_size_of batch.length :=
      sub_batch_size_of_pos (by omega)
    have hsb_le : sb.length ≤ sub_batch_size_of batch.length :=
      (mem_split_every_bounds hsize hsb).1
    have hsb_lt : sb.length < batch.length :=
      Nat.lt_of_le_of_lt hsb_le (sub_batch_size_of_lt h2)
    apply saveBatchGo_eq_save_batch
    exact Nat.le_trans (clog_factor_le_self sb.length) (by omega)

theorem saveBatchList_ok_ones {α : Type} (env : WriteEnv α) :
    ∀ (batches : List (List α)), (∀ b ∈ batches, save_batch env b = Except.ok 1) →
      saveBatchList env batches = Except.ok batches.length := by
  have aux : ∀ (batches : List (List α)),
      (∀ b ∈ batches, save_batch env b = Except.ok 1) →
      ∀ init : Nat,
        batches.foldlM (fun acc b => (save_batch env b).map (fun r => acc + r)) init
          = Except.ok (init + batches.length) := by
    intro batches
    induction batches with
    | nil => intro _ init; rfl
    | cons x xs ih =>
        intro h init
        rw [List.foldlM_cons, h x (List.mem_cons_self x xs)]
        have := ih (fun b hb => h b (List.mem_cons_of_mem x hb)) (init + 1)
        show List.foldlM _ (init + 1) xs = Except.ok (init + (xs.length + 1))
        rw [this]
        congr 1
        omega
  intro batches h
  have := aux batches h 0
  unfold saveBatchList
  rw [this, Nat.zero_add]

theorem saveBatchList_error_head {α : Type} (env : WriteEnv α) (b : List α)
    (rest : List (List α)) (e : String) (h : save_batch env b = Except.error e) :
    saveBatchList env (b :: rest) = Except.error e := by
  unfold saveBatchList
  rw [List.foldlM_cons, h]
  rfl

theorem mem_savingClasses {s : Saving} {c : ModelClass} :
    c ∈ savingClasses s ↔ c ∈ SAVING_CLASSES_ORDER ∧ s c ≠ [] := by
  unfold savingClasses
  rw [List.mem_filter]
  constructor
  · rintro ⟨h1, h2⟩
    refine ⟨h1, ?_⟩
    intro he
    rw [he] at h2
    simp at h2
  · rintro ⟨h1, h2⟩
    refine ⟨h1, ?_⟩
    simp
    intro he
    exact absurd he h2

theorem prepPhase_untouched (env : SaveEnv) :
    ∀ (cs : List ModelClass) (s : Saving) (c : ModelClass), c ∉ cs →
      (prepPhase env s cs).1 c = s c := by
  intro cs
  induction cs with
  | nil => intro s c _; rfl
  | cons c0 rest ih =>
      intro s c hc
      have hne : c ≠ c0 := fun he => hc (he ▸ List.mem_cons_self c0 rest)
      have hrest : c ∉ rest := fun hm => hc (List.mem_cons_of_mem c0 hm)
      cases hpf : env.prepFails c0 with
      | true => simp [prepPhase, hpf]
      | false =>
          simp only [prepPhase, hpf, Bool.false_eq_true, if_false]
          rw [ih _ c hrest]
          simp [updateBucket, hne]

theorem savePhase_untouched (env : SaveEnv) :
    ∀ (cs : List ModelClass) (s : Saving) (c : ModelClass), c ∉ cs →
      (savePhase env s cs).1 c = s c := by
  intro cs
  induction cs with
  | nil => intro s c _; rfl
  | cons c0 rest ih =>
      intro s c hc
      have hne : c ≠ c0 := fun he => hc (he ▸ List.mem_cons_self c0 rest)
      have hrest : c ∉ rest := fun hm => hc (List.mem_cons_of_mem c0 hm)
      cases hwf : env.writeFails c0 with
      | true => simp [savePhase, hwf, updateBucket, hne]
      | false =>
          simp only [savePhase, hwf, Bool.false_eq_true, if_false]
          rw [ih _ c hrest]
          simp [updateBucket, hne]

theorem savePhase_preserves_empty (env : SaveEnv) :
    ∀ (cs : List ModelClass) (s : Saving) (c : ModelClass), s c = [] →
      (savePhase env s cs).1 c = [] := by
  intro cs
  induction cs with
  | nil => intro s c h; exact h
  | cons c0 rest ih =>
      intro s c h
      have hs' : updateBucket s c0 [] c = [] := by
        unfold updateBucket
        by_cases he : c = c0 <;> simp [he, h]
      cases hwf : env.writeFails c0 with
      | true => simp [savePhase, hwf, hs']
      | false =>
          simp only [savePhase, hwf, Bool.false_eq_true, if_false]
          exact ih _ c hs'

/-- Once the write loop reaches a class — every class strictly earlier in the
loop's list has a non-raising write — that class's bucket is empty afterwards,
whether its own write succeeds or raises. -/
theorem savePhase_clears (env : SaveEnv) :
    ∀ (cs : List ModelClass) (s : Saving) (c : ModelClass), c ∈ cs →
      (∀ b ∈ cs, listPos cs b < listPos cs c → env.writeFails b = false) →
      (savePhase env s cs).1 c = [] := by
  intro cs
  induction cs with
  | nil => intro s c hc _; cases hc
  | cons c0 rest ih =>
      intro s c hc hpre
      by_cases he : c = c0
      · subst he
        have hs' : updateBucket s c [] c = [] := by simp [updateBucket]
        cases hwf : env.writeFails c with
        | true => simp [savePhase, hwf, updateBucket]
        | false =>
            simp only [savePhase, hwf, Bool.false_eq_true, if_false]
            exact savePhase_preserves_empty env rest _ c hs'
      · have hcrest : c ∈ rest := by
          rcases List.mem_cons.mp hc with h1 | h2
          · exact absurd h1 he
          · exact h2
        have hposc : listPos (c0 :: rest) c = listPos rest c + 1 :=
          listPos_cons_ne rest (fun h0 => he h0.symm)
        have hwf0 : env.writeFails c0 = false := by
          apply hpre c0 (List.mem_cons_self c0 rest)
          rw [listPos_cons_self, hposc]
          omega
        simp only [savePhase, hwf0, Bool.false_eq_true, if_false]
        apply ih _ c hcrest
        intro b hb hpos
        by_cases hbe : b = c0
        · subst hbe; exact hwf0
        · apply hpre b (List.mem_cons_of_mem c0 hb)
          rw [hposc, listPos_cons_ne rest (fun h0 => hbe h0.symm)]
          omega

theorem savePhase_flag_no_fail (env : SaveEnv) :
    ∀ (cs : List ModelClass) (s : Saving),
      (savePhase env s cs).2.2 = true →
      ∀ b ∈ cs, env.writeFails b = false := by
  intro cs
  induction cs with
  | nil => intro s _ b hb; cases hb
  | cons c0 rest ih =>
      intro s hflag b hb
      cases hwf : env.writeFails c0 with
      | true => simp [savePhase, hwf] at hflag
      | false =>
          simp only [savePhase, hwf, Bool.false_eq_true, if_false] at hflag
          rcases List.mem_cons.mp hb with h1 | h2
          · exact h1 ▸ hwf
          · exact ih _ hflag b h2

theorem savePhase_success_clears (env : SaveEnv) (cs : List ModelClass)
    (s : Saving) (hflag : (savePhase env s cs).2.2 = true) :
    ∀ c ∈ cs, (savePhase env s cs).1 c = [] := by
  intro c hc
  apply savePhase_clears env cs s c hc
  intro b hb _
  exact savePhase_flag_no_fail env cs s hflag b hb

theorem prepPhase_no_fail (env : SaveEnv)
    (h : ∀ c, env.prepFails c = false) :
    ∀ (cs : List ModelClass) (s : Saving),
      (prepPhase env s cs).2.1 = cs.map Event.prepare
        ∧ (prepPhase env s cs).2.2 = true := by
  intro cs
  induction cs with
  | nil => intro s; exact ⟨rfl, rfl⟩
  | cons c0 rest ih =>
      intro s
      simp only [prepPhase, h c0, Bool.false_eq_true, if_false, List.map_cons]
      exact ⟨by rw [(ih _).1], (ih _).2⟩

theorem savePhase_no_fail (env : SaveEnv)
    (h : ∀ c, env.writeFails c = false) :
    ∀ (cs : List ModelClass) (s : Saving),
      (savePhase env s cs).2.1 = cs.map Event.save
        ∧ (savePhase env s cs).2.2 = true := by
  intro cs
  induction cs with
  | nil => intro s; exact ⟨rfl, rfl⟩
  | cons c0 rest ih =>
      intro s
      simp only [savePhase, h c0, Bool.false_eq_true, if_false, List.map_cons]
      exact ⟨by rw [(ih _).1], (ih _).2⟩

theorem event_prepare_injective : Function.Injective Event.prepare := by
  intro a b h
  injection h

theorem event_save_injective : Function.Injective Event.save := by
  intro a b h
  injection h

theorem save_not_mem_map_prepare (cs : List ModelClass) (c : ModelClass) :
    Event.save c ∉ cs.map Event.prepare := by
  intro h
  rcases List.mem_map.mp h with ⟨a, _, ha⟩
  cases ha

theorem save_all_exec_no_fail_trace (env : SaveEnv) (s : Saving)
    (hr : env.reserveFails = false)
    (hp : ∀ c, env.prepFails c = false)
    (hw : ∀ c, env.writeFails c = false) :
    (save_all_exec env s).2.1
      = Event.reserve (savingClasses s)
          :: ((savingClasses s).map Event.prepare
              ++ (savingClasses s).map Event.save) := by
  have hprep := prepPhase_no_fail env hp (savingClasses s) s
  have hsave := savePhase_no_fail env hw (savingClasses s)
    (prepPhase env s (savingClasses s)).1
  unfold save_all_exec
  simp only [hr, Bool.false_eq_true, if_false, hprep.2, if_true, hprep.1,
    hsave.1]

/-- C1 (amended): in a `save_all` run with no failures, writes happen in
dependency order, preparations happen in dependency order, and no later type
is written before an earlier pending type's write completes — but every
pending type, later types included, is prepared BEFORE any type's records are
written: the preparation of the later type `b` precedes the write of the
earlier type `a` in the trace. -/
theorem C1_prepare_write_order (env : SaveEnv) (s : Saving) (a b : ModelClass)
    (hr : env.reserveFails = false)
    (hp : ∀ c, env.prepFails c = false)
    (hw : ∀ c, env.writeFails c = false)
    (ha : a ∈ savingClasses s) (hb : b ∈ savingClasses s)
    (hab : listPos SAVING_CLASSES_ORDER a < listPos SAVING_CLASSES_ORDER b) :
    listPos (save_all_exec env s).2.1 (Event.save a)
        < listPos (save_all_exec env s).2.1 (Event.save b)
      ∧ listPos (save_all_exec env s).2.1 (Event.prepare a)
        < listPos (save_all_exec env s).2.1 (Event.prepare b)
      ∧ listPos (save_all_exec env s).2.1 (Event.prepare b)
        < listPos (save_all_exec env s).2.1 (Event.save a) := by
  rw [save_all_exec_no_fail_trace env s hr hp hw]
  have hcs : listPos (savingClasses s) a < listPos (savingClasses s) b := by
    unfold savingClasses at ha hb ⊢
    exact listPos_filter_lt ha hb hab
  have hpp : ∀ x, x ∈ savingClasses s →
      listPos (Event.reserve (savingClasses s)
          :: ((savingClasses s).map Event.prepare
              ++ (savingClasses s).map Event.save)) (Event.prepare x)
        = listPos (savingClasses s) x + 1 := by
    intro x hx
    rw [listPos_cons_ne _ (by intro h; cases h)]
    rw [listPos_append_left _ (List.mem_map_of_mem Event.prepare hx)]
    rw [listPos_map event_prepare_injective x (savingClasses s)]
  have hsp : ∀ x, x ∈ savingClasses s →
      listPos (Event.reserve (savingClasses s)
          :: ((savingClasses s).map Event.prepare
              ++ (savingClasses s).map Event.save)) (Event.save x)
        = (savingClasses s).length + listPos (savingClasses s) x + 1 := by
    intro x hx
    rw [listPos_cons_ne _ (by intro h; cases h)]
    rw [listPos_append_right _ (save_not_mem_map_prepare (savingClasses s) x)]
    rw [List.length_map, listPos_map event_save_injective x (savingClasses s)]
  have hblt : listPos (savingClasses s) b < (savingClasses s).length :=
    listPos_lt_length hb
  rw [hpp a ha, hpp b hb, hsp a ha, hsp b hb]
  omega

/-- C1 counterexample: with records pending for both `SharedText` and `Issue`
(`Issue` comes later in `SAVING_CLASSES_ORDER`), `save_all` completes the
preparation of `Issue` strictly before the write of `SharedText` completes —
so, contrary to the claim, a record of a later type IS prepared before all
pending records of the earlier type have completed writing. -/
theorem C1_counterexample :
    (save_all_exec envNoFail savingTwo).2.1
        = [Event.reserve [ModelClass.SharedText, ModelClass.Issue],
            Event.prepare ModelClass.SharedText,
            Event.prepare ModelClass.Issue,
            Event.save ModelClass.SharedText,
            Event.save ModelClass.Issue]
      ∧ listPos (save_all_exec envNoFail savingTwo).2.1
            (Event.prepare ModelClass.Issue)
          < listPos (save_all_exec envNoFail savingTwo).2.1
            (Event.save ModelClass.SharedText) := by
  constructor
  · rfl
  · decide

theorem C1_witness :
    listPos (save_all_exec envNoFail savingTwo).2.1
          (Event.save ModelClass.SharedText)
        < listPos (save_all_exec envNoFail savingTwo).2.1
          (Event.save ModelClass.Issue)
      ∧ listPos (save_all_exec envNoFail savingTwo).2.1
          (Event.prepare ModelClass.SharedText)
        < listPos (save_all_exec envNoFail savingTwo).2.1
          (Event.prepare ModelClass.Issue)
      ∧ listPos (save_all_exec envNoFail savingTwo).2.1
          (Event.prepare ModelClass.Issue)
        < listPos (save_all_exec envNoFail savingTwo).2.1
          (Event.save ModelClass.SharedText) :=
  C1_prepare_write_order envNoFail savingTwo ModelClass.SharedText
    ModelClass.Issue rfl (fun _ => rfl) (fun _ => rfl) (by decide) (by decide)
    (by decide)

theorem not_mem_savingClasses_empty {s : Saving} {c : ModelClass}
    (hc : c ∈ SAVING_CLASSES_ORDER) (hn : c ∉ savingClasses s) : s c = [] := by
  by_contra he
  exact hn (mem_savingClasses.mpr ⟨hc, he⟩)

/-- C2 (amended): when `save_all` returns successfully every bucket is empty.
Regardless of the overall outcome, once a class's write phase has begun (every
class strictly earlier in the write loop wrote without raising), that class's
bucket is empty on return even if its own write raised. Buckets of classes
whose write never began — in particular all non-empty buckets when the
reservation or a preparation raises — keep their records (see the
counterexample). -/
theorem C2_buckets_after_save_all (env : SaveEnv) (s : Saving) :
    ((save_all_exec env s).2.2 = true →
        ∀ c ∈ SAVING_CLASSES_ORDER, (save_all_exec env s).1 c = [])
      ∧ (env.reserveFails = false →
          (prepPhase env s (savingClasses s)).2.2 = true →
          ∀ c ∈ savingClasses s,
            (∀ b ∈ savingClasses s,
                listPos (savingClasses s) b < listPos (savingClasses s) c →
                env.writeFails b = false) →
            (save_all_exec env s).1 c = []) := by
  constructor
  · intro hok c hc
    cases hr : env.reserveFails with
    | true =>
        unfold save_all_exec at hok
        simp [hr] at hok
    | false =>
        cases hpf : (prepPhase env s (savingClasses s)).2.2 with
        | false =>
            unfold save_all_exec at hok
            simp [hr, hpf] at hok
        | true =>
            unfold save_all_exec at hok ⊢
            simp only [hr, Bool.false_eq_true, if_false, hpf, if_true] at hok ⊢
            by_cases hcs : c ∈ savingClasses s
            · exact savePhase_success_clears env (savingClasses s) _ hok c hcs
            · have hsc : s c = [] := not_mem_savingClasses_empty hc hcs
              rw [savePhase_untouched env (savingClasses s) _ c hcs,
                prepPhase_untouched env (savingClasses s) s c hcs]
              exact hsc
  · intro hr hpf c hc hpre
    unfold save_all_exec
    simp only [hr, Bool.false_eq_true, if_false, hpf, if_true]
    exact savePhase_clears env (savingClasses s) _ c hc hpre

/-- C2 counterexample: when the key reservation raises, `save_all` returns
with the `Issue` bucket still holding its pending record, so the buckets are
NOT all empty on a failing return; likewise a fatal write error on
`SharedText` leaves the later `Issue` bucket non-empty. -/
theorem C2_counterexample :
    (save_all_exec envReserveFails savingTwo).2.2 = false
      ∧ (save_all_exec envReserveFails savingTwo).1 ModelClass.Issue
          = [⟨ModelClass.Issue, 1⟩]
      ∧ (save_all_exec envWriteFailsShared savingTwo).2.2 = false
      ∧ (save_all_exec envWriteFailsShared savingTwo).1 ModelClass.Issue
          = [⟨ModelClass.Issue, 1⟩]
      ∧ (save_all_exec envWriteFailsShared savingTwo).1 ModelClass.SharedText
          = [] := by
  refine ⟨rfl, rfl, rfl, rfl, rfl⟩

theorem C2_witness :
    (save_all_exec envNoFail savingTwo).1 ModelClass.Issue = [] :=
  (C2_buckets_after_save_all envNoFail savingTwo).1 (by decide)
    ModelClass.Issue (by decide)

/-- C3 counterexample: with `BATCH_SPLIT_FACTOR = 4`, a failing chunk of 8
records splits into sub-chunks of size `ceil(8 / 4) = 2` — four chunks of two
records — not into 2 chunks of 4 as claimed; the sub-chunk containing the
duplicate then splits into 2 singleton chunks, not 4. -/
theorem C3_counterexample :
    sub_batch_size_of 8 = 2
      ∧ split_every (sub_batch_size_of 8) [0, 1, 2, 3, 4, 5, 6, 7]
          = [[0, 1], [2, 3], [4, 5], [6, 7]]
      ∧ (split_every (sub_batch_size_of 8) [0, 1, 2, 3, 4, 5, 6, 7]).length ≠ 2
      ∧ sub_batch_size_of 2 = 1
      ∧ split_every (sub_batch_size_of 2) [2, 3] = [[2], [3]] := by
  refine ⟨rfl, rfl, by decide, rfl, rfl⟩

/-- C3 (amended): for the chunk `[0,…,7]` with exactly one duplicate (record
3, `envOneDup`) whose fresh merge resolves it, the retry algorithm runs: the
initial chunk of 8 fails and splits into four chunks of two; the three clean
two-record chunks each cost 1 round trip; the chunk `[2, 3]` containing the
duplicate fails again and splits into the singletons `[2]` (inserted, 1 round
trip) and `[3]` (resolved via merge, 1 round trip), costing 3 round trips in
total; the grand total returned is 7 round trips. -/
theorem C3_split_scenario :
    save_batch envOneDup [0, 1, 2, 3, 4, 5, 6, 7] = Except.ok 7
      ∧ split_every (sub_batch_size_of 8) [0, 1, 2, 3, 4, 5, 6, 7]
          = [[0, 1], [2, 3], [4, 5], [6, 7]]
      ∧ save_batch envOneDup [0, 1] = Except.ok 1
      ∧ save_batch envOneDup [4, 5] = Except.ok 1
      ∧ save_batch envOneDup [6, 7] = Except.ok 1
      ∧ save_batch envOneDup [2, 3] = Except.ok 3
      ∧ split_every (sub_batch_size_of 2) [2, 3] = [[2], [3]]
      ∧ save_batch envOneDup [2] = Except.ok 1
      ∧ save_batch envOneDup [3] = Except.ok 1 := by
  refine ⟨rfl, rfl, rfl, rfl, rfl, rfl, rfl, rfl, rfl⟩

/-- C4: a batch of more than one record whose insert raises a uniqueness
conflict is split into sub-chunks of size
`ceil(len(batch) / BATCH_SPLIT_FACTOR)` with `BATCH_SPLIT_FACTOR = 4` (the
ceiling division keeps the sub-chunk size positive); `_save_batch` is applied
recursively to each sub-chunk in order, and the result is the sum of the
sub-chunks' round trips plus one for the failed attempt. -/
theorem C4_split_recursion {α : Type} (env : WriteEnv α) (batch : List α)
    (hdup : batch.any env.isDup = true) (h2 : 2 ≤ batch.length) :
    BATCH_SPLIT_FACTOR = 4
      ∧ sub_batch_size_of batch.length
          = (batch.length + BATCH_SPLIT_FACTOR - 1) / BATCH_SPLIT_FACTOR
      ∧ 1 ≤ sub_batch_size_of batch.length
      ∧ save_batch env batch
          = (saveBatchList env
                (split_every (sub_batch_size_of batch.length) batch)).map
              (fun s => 1 + s) :=
  ⟨rfl, sub_batch_size_of_eq batch.length,
    sub_batch_size_of_pos (by omega), save_batch_split env hdup h2⟩

theorem C4_witness :
    BATCH_SPLIT_FACTOR = 4
      ∧ sub_batch_size_of 2 = (2 + BATCH_SPLIT_FACTOR - 1) / BATCH_SPLIT_FACTOR
      ∧ 1 ≤ sub_batch_size_of 2
      ∧ save_batch envAllDup [0, 1]
          = (saveBatchList envAllDup
                (split_every (sub_batch_size_of 2) [0, 1])).map
              (fun s => 1 + s) :=
  C4_split_recursion envAllDup [0, 1] (by decide) (by decide)

/-- C5: a single-record batch whose insert raises a uniqueness conflict is
re-merged; if the merge resolves it the chunk is handled successfully with its
round-trip count and no error escapes; if the merge still reports it
unresolved, `_save_batch` raises a `ValueError` naming the record and the
class, and the error aborts the processing of all remaining chunks. -/
theorem C5_single_record_merge {α : Type} (env : WriteEnv α) (d : α)
    (h : env.isDup d = true) :
    save_batch env [d]
        = (if env.mergeResolves d then Except.ok 1
           else Except.error (unresolvedDuplicateMessage env d))
      ∧ unresolvedDuplicateMessage env d
          = "Got a duplicate key exception that was not resolved by "
              ++ env.clsName ++ ".merge: " ++ env.showRecord d
      ∧ (env.mergeResolves d = false →
          ∀ rest : List (List α),
            saveBatchList env ([d] :: rest)
              = Except.error (unresolvedDuplicateMessage env d)) := by
  refine ⟨save_batch_single env h, rfl, ?_⟩
  intro hm rest
  apply saveBatchList_error_head
  rw [save_batch_single env h, hm]
  simp

theorem C5_witness :
    save_batch envStuckDup [5]
        = Except.error (unresolvedDuplicateMessage envStuckDup 5)
      ∧ saveBatchList envStuckDup [[5]]
          = Except.error (unresolvedDuplicateMessage envStuckDup 5) := by
  have h := C5_single_record_merge envStuckDup 5 (by decide)
  refine ⟨?_, h.2.2 rfl []⟩
  rw [h.1]
  rfl

/-- C6: with no uniqueness conflicts, saving N prepared records of one type
costs exactly `ceil(N / BATCH_SIZE)` round trips with `BATCH_SIZE = 30000`,
one per chunk; in particular 100000 records are split into 4 chunks of sizes
30000, 30000, 30000, 10000. -/
theorem C6_round_trips {α : Type} (env : WriteEnv α) (items : List α)
    (h : items.any env.isDup = false) :
    BATCH_SIZE = 30000
      ∧ save_items env items
          = Except.ok ((items.length + BATCH_SIZE - 1) / BATCH_SIZE)
      ∧ (split_every BATCH_SIZE (List.replicate 100000 (0 : Nat))).map
            List.length
          = [30000, 30000, 30000, 10000] := by
  have hB : (1 : Nat) ≤ BATCH_SIZE := by decide
  refine ⟨rfl, ?_, ?_⟩
  · unfold save_items
    have hchunks : ∀ b ∈ split_every BATCH_SIZE items,
        save_batch env b = Except.ok 1 := by
      intro b hb
      apply save_batch_no_dup
      cases hv : b.any env.isDup with
      | false => rfl
      | true =>
          exfalso
          rcases List.any_eq_true.mp hv with ⟨x, hxb, hx⟩
          have hxi : x ∈ items := mem_of_mem_split_every hb hxb
          have : items.any env.isDup = true := List.any_eq_true.mpr ⟨x, hxi, hx⟩
          rw [this] at h
          cases h
    rw [saveBatchList_ok_ones env _ hchunks, length_split_every hB items]
  · have hBe : BATCH_SIZE = 30000 := rfl
    rw [hBe]
    have s1 := split_every_replicate
      (show (1 : Nat) ≤ 30000 by decide) (show (1 : Nat) ≤ 100000 by decide)
      (0 : Nat)
    have e1 : min 30000 100000 = 30000 := by decide
    have e2 : (100000 : Nat) - 30000 = 70000 := by decide
    rw [e1, e2] at s1
    have s2 := split_every_replicate
      (show (1 : Nat) ≤ 30000 by decide) (show (1 : Nat) ≤ 70000 by decide)
      (0 : Nat)
    have e3 : min 30000 70000 = 30000 := by decide
    have e4 : (70000 : Nat) - 30000 = 40000 := by decide
    rw [e3, e4] at s2
    have s3 := split_every_replicate
      (show (1 : Nat) ≤ 30000 by decide) (show (1 : Nat) ≤ 40000 by decide)
      (0 : Nat)
    have e5 : min 30000 40000 = 30000 := by decide
    have e6 : (40000 : Nat) - 30000 = 10000 := by decide
    rw [e5, e6] at s3
    have s4 := split_every_replicate
      (show (1 : Nat) ≤ 30000 by decide) (show (1 : Nat) ≤ 10000 by decide)
      (0 : Nat)
    have e7 : min 30000 10000 = 10000 := by decide
    have e8 : (10000 : Nat) - 30000 = 0 := by decide
    rw [e7, e8] at s4
    rw [s1, s2, s3, s4, List.replicate_zero, split_every_nil]
    simp only [List.map_cons, List.map_nil, List.length_replicate]

theorem C6_witness :
    BATCH_SIZE = 30000
      ∧ save_items envNoDup [10, 11, 12]
          = Except.ok ((3 + BATCH_SIZE - 1) / BATCH_SIZE)
      ∧ (split_every BATCH_SIZE (List.replicate 100000 (0 : Nat))).map
            List.length
          = [30000, 30000, 30000, 10000] :=
  C6_round_trips envNoDup [10, 11, 12] rfl

/-- C7: `save_all` on a `BulkSaver` whose buckets are all empty computes an
empty `saving_classes` list, so the run reserves keys for zero classes
(reserving nothing and costing no round trip), performs no preparation and no
write, leaves the buffers untouched, and succeeds: zero store round trips. -/
theorem C7_empty_noop (env : SaveEnv) (s : Saving)
    (h : ∀ c ∈ SAVING_CLASSES_ORDER, s c = [])
    (hr : env.reserveFails = false) :
    savingClasses s = []
      ∧ (save_all_exec env s).2.1 = [Event.reserve []]
      ∧ traceRoundTrips (save_all_exec env s).2.1 = 0
      ∧ (save_all_exec env s).1 = s
      ∧ (save_all_exec env s).2.2 = true := by
  have hcs : savingClasses s = [] := by
    unfold savingClasses
    rw [List.filter_eq_nil_iff]
    intro c hc
    rw [h c hc]
    simp
  have hexec : save_all_exec env s = (s, [Event.reserve []], true) := by
    unfold save_all_exec
    rw [hcs]
    simp only [hr, Bool.false_eq_true, if_false, prepPhase, savePhase, if_true]
    rfl
  rw [hexec, hcs]
  exact ⟨rfl, rfl, rfl, rfl, rfl⟩

theorem C7_witness :
    savingClasses emptySaving = []
      ∧ (save_all_exec envNoFail emptySaving).2.1 = [Event.reserve []]
      ∧ traceRoundTrips (save_all_exec envNoFail emptySaving).2.1 = 0
      ∧ (save_all_exec envNoFail emptySaving).1 = emptySaving
      ∧ (save_all_exec envNoFail emptySaving).2.2 = true :=
  C7_empty_noop envNoFail emptySaving (by decide) rfl

/-- C8: the retry recursion of `_save_batch` terminates, with depth bounded by
the ceiling logarithm base `BATCH_SPLIT_FACTOR` of the chunk size: for a batch
of at least two records the sub-chunk size `ceil(len/4)` is strictly smaller
than the batch, every sub-chunk is non-empty and strictly smaller than the
parent, any fuel of at least `Nat.clog BATCH_SPLIT_FACTOR batch.length`
recursion levels already computes `_save_batch` exactly, and single-record
chunks never recurse (zero levels suffice for them). -/
theorem C8_termination {α : Type} (env : WriteEnv α) (batch : List α)
    (h2 : 2 ≤ batch.length) :
    sub_batch_size_of batch.length < batch.length
      ∧ (∀ sb ∈ split_every (sub_batch_size_of batch.length) batch,
          sb.length < batch.length ∧ sb ≠ [])
      ∧ (∀ fuel, Nat.clog BATCH_SPLIT_FACTOR batch.length ≤ fuel →
          saveBatchGo env fuel batch = save_batch env batch)
      ∧ (∀ d : α, saveBatchGo env 0 [d] = save_batch env [d]) := by
  have hlt : sub_batch_size_of batch.length < batch.length :=
    sub_batch_size_of_lt h2
  have hpos : 1 ≤ sub_batch_size_of batch.length :=
    sub_batch_size_of_pos (by omega)
  refine ⟨hlt, ?_, ?_, ?_⟩
  · intro sb hsb
    have hb := mem_split_every_bounds hpos hsb
    exact ⟨Nat.lt_of_le_of_lt hb.1 hlt, hb.2⟩
  · intro fuel hfuel
    exact saveBatchGo_eq_save_batch env batch hfuel
  · intro d
    by_cases hd : env.isDup d = true
    · rw [saveBatchGo_single env 0 hd]
      exact (save_batch_single env hd).symm
    · have hd' : env.isDup d = false := by
        cases hv : env.isDup d
        · rfl
        · exact absurd hv hd
      have hany : [d].any env.isDup = false := by simp [hd']
      rw [saveBatchGo_no_dup env 0 hany]
      exact (save_batch_no_dup env hany).symm

theorem C8_witness :
    sub_batch_size_of 3 < 3
      ∧ saveBatchGo envNoDup 0 [7] = save_batch envNoDup [7] := by
  have h := C8_termination envNoDup [0, 1, 2] (by decide)
  exact ⟨h.1, h.2.2.2 7⟩

/-- C9 (amended): `_prepare` stores the output of the type's `prepare`
capability stable-sorted by the list of field keys of each record's field map.
Consequently the stored sequence is a permutation of the `prepare` output, is
sorted under the key-list order, and any two records with the same key LIST
(not merely the same key set — see the counterexample) appear contiguously:
every record lying between them carries that same key list. -/
theorem C9_prepare_sorted {α K : Type} [LinearOrder K] (prep : List α → List α)
    (toKeys : α → List K) (bucket : List α) :
    List.Perm (prepare_model prep toKeys bucket) (prep bucket)
      ∧ List.Sorted (keyOrder toKeys) (prepare_model prep toKeys bucket)
      ∧ (∀ i j k : Fin (prepare_model prep toKeys bucket).length,
          i ≤ j → j ≤ k →
          toKeys ((prepare_model prep toKeys bucket).get i)
              = toKeys ((prepare_model prep toKeys bucket).get k) →
          toKeys ((prepare_model prep toKeys bucket).get j)
              = toKeys ((prepare_model prep toKeys bucket).get i)) := by
  have hsorted : List.Sorted (keyOrder toKeys) (prepare_model prep toKeys bucket) :=
    List.sorted_insertionSort (keyOrder toKeys) (prep bucket)
  refine ⟨List.perm_insertionSort (keyOrder toKeys) (prep bucket), hsorted, ?_⟩
  intro i j k hij hjk heq
  have h1 : keyOrder toKeys ((prepare_model prep toKeys bucket).get i)
      ((prepare_model prep toKeys bucket).get j) :=
    hsorted.rel_get_of_le hij
  have h2 : keyOrder toKeys ((prepare_model prep toKeys bucket).get j)
      ((prepare_model prep toKeys bucket).get k) :=
    hsorted.rel_get_of_le hjk
  unfold keyOrder at h1 h2
  rw [← heq] at h2
  exact le_antisymm h2 h1

/-- C9 counterexample: with `prepare` the identity and key shapes `toKeysABC`
(records 0 and 2 carry the same key SET as the lists `[0, 1]` and
`[1, 0]`, record 1 carries `[0, 2]`, a different set), the stored
sequence is `[0, 1, 2]`: the two records with equal key sets are separated by
record 1, so records with the same key set are NOT grouped contiguously. -/
theorem C9_counterexample :
    prepare_model (fun l => l) toKeysABC [0, 1, 2] = [0, 1, 2]
      ∧ (toKeysABC 0).toFinset = (toKeysABC 2).toFinset
      ∧ (toKeysABC 1).toFinset ≠ (toKeysABC 0).toFinset := by
  refine ⟨by decide, by decide, by decide⟩

theorem C9_witness :
    List.Perm (prepare_model (fun l => l) toKeysABC [0, 1, 2]) [0, 1, 2]
      ∧ List.Sorted (keyOrder toKeysABC)
          (prepare_model (fun l => l) toKeysABC [0, 1, 2]) :=
  by
  have h := C9_prepare_sorted (fun l => l) toKeysABC [0, 1, 2]
  exact ⟨h.1, h.2.1⟩

/-- C10: `add_all []` leaves every bucket unchanged; for a non-empty list
whose FIRST item's model is in `SAVING_CLASSES_ORDER`, `add_all` succeeds —
whatever the models of the later items — and extends exactly the bucket keyed
by the first item's model with ALL the items: buckets of every other class,
including the later items' own model classes, are unchanged, and every later
item lands in the first item's bucket. -/
theorem C10_add_all (s : Saving) (first : Item) (rest : List Item)
    (h : first.model ∈ SAVING_CLASSES_ORDER) :
    add_all s [] = Except.ok s
      ∧ add_all s (first :: rest)
          = Except.ok (updateBucket s first.model
              (s first.model ++ (first :: rest)))
      ∧ (∀ c : ModelClass, c ≠ first.model →
          updateBucket s first.model (s first.model ++ (first :: rest)) c
            = s c)
      ∧ (∀ it ∈ rest,
          it ∈ updateBucket s first.model
            (s first.model ++ (first :: rest)) first.model) := by
  refine ⟨rfl, ?_, ?_, ?_⟩
  · unfold add_all
    simp [h]
  · intro c hc
    unfold updateBucket
    simp [hc]
  · intro it hit
    unfold updateBucket
    simp only [if_pos rfl]
    exact List.mem_append_right _ (List.mem_cons_of_mem first hit)

theorem C10_witness :
    add_all emptySaving [] = Except.ok emptySaving
      ∧ add_all emptySaving [⟨ModelClass.SharedText, 0⟩, ⟨ModelClass.Run, 1⟩]
          = Except.ok (updateBucket emptySaving ModelClass.SharedText
              (emptySaving ModelClass.SharedText
                ++ [⟨ModelClass.SharedText, 0⟩, ⟨ModelClass.Run, 1⟩]))
      ∧ updateBucket emptySaving ModelClass.SharedText
            (emptySaving ModelClass.SharedText
              ++ [⟨ModelClass.SharedText, 0⟩, ⟨ModelClass.Run, 1⟩])
            ModelClass.Run
          = emptySaving ModelClass.Run
      ∧ (⟨ModelClass.Run, 1⟩ : Item)
          ∈ updateBucket emptySaving ModelClass.SharedText
              (emptySaving ModelClass.SharedText
                ++ [⟨ModelClass.SharedText, 0⟩, ⟨ModelClass.Run, 1⟩])
              ModelClass.SharedText := by
  have h := C10_add_all emptySaving ⟨ModelClass.SharedText, 0⟩
    [⟨ModelClass.Run, 1⟩] (by decide)
  exact ⟨h.1, h.2.1, h.2.2.1 ModelClass.Run (by decide),
    h.2.2.2 ⟨ModelClass.Run, 1⟩ (by decide)⟩

end BulkSaverModel

